import Mathlib

set_option autoImplicit false

namespace CleanupJson

/-- A JSON value, as parsed from the catalog file. Entries of the catalog are
JSON objects; their fields may hold arbitrary JSON values. Nested arrays and
objects are encoded as cons cells (`arrCons head tail`, `objCons key value
tail`) so the type is a plain non-nested inductive; the cleanup script never
looks inside them, it only distinguishes string values from the rest. -/
inductive JVal where
  | str : String → JVal
  | num : Int → JVal
  | boolean : Bool → JVal
  | null : JVal
  | arrNil : JVal
  | arrCons : JVal → JVal → JVal
  | objNil : JVal
  | objCons : String → JVal → JVal → JVal
  deriving DecidableEq

/-- A catalog entry: a JSON object, modelled as an ordered association list
(Python dicts preserve insertion order). -/
abbrev Entry : Type := List (String × JVal)

/-- The catalog: an ordered sequence of entries. -/
abbrev Catalog : Type := List Entry

/-- Dictionary lookup on an entry, modelling Python's `item[key]` together with
the membership test `key in item` (the result is `none` exactly when the key is
absent). -/
def lookupField (e : Entry) (key : String) : Option JVal :=
  match e with
  | [] => none
  | (k, v) :: rest => if k = key then some v else lookupField rest key

/-- Python's `item.get(key, default)`. -/
def entryGetD (e : Entry) (key : String) (default : JVal) : JVal :=
  match lookupField e key with
  | some v => v
  | none => default

/-- Python's `isinstance(v, str)`, as a partial projection. -/
def asStr : JVal → Option String
  | JVal.str s => some s
  | _ => none

/-- The string value of the entry's `image` field. This is `none` when the
field is absent; it is also `none` when the field holds a non-string value, a
case in which the real script raises a `TypeError` inside `urlparse` — the
well-formedness predicate `entryImageWF` rules that case out, and the total
model treats it as "no image". -/
def imageStrOf (item : Entry) : Option String :=
  (lookupField item "image").bind asStr

/-- A character allowed in a URL scheme: letters, digits, `+`, `-`, `.`
(CPython's `scheme_chars` in `urllib.parse`). -/
def isSchemeChar (c : Char) : Bool :=
  c.isAlpha || c.isDigit || c = '+' || c = '-' || c = '.'

/-- Helper for scheme stripping: walk to the first `:`; succeed with the
remainder when every character before it is a scheme character, as in
CPython's loop `for c in url[:i]`. -/
def stripSchemeAux : List Char → Option (List Char)
  | [] => none
  | c :: cs => if c = ':' then some cs
               else if isSchemeChar c then stripSchemeAux cs
               else none

/-- Drop a leading `scheme:` prefix, as `urllib.parse.urlsplit` does: the
scheme must start with a letter and every character up to the first `:` must
be a scheme character, otherwise the URL is left alone. -/
def stripScheme (cs : List Char) : List Char :=
  match cs with
  | [] => []
  | c :: rest =>
    if c.isAlpha then
      match stripSchemeAux rest with
      | some r => r
      | none => c :: rest
    else c :: rest

/-- Drop the netloc after a leading `//`: everything up to the next `/`, `?`
or `#` (the delimiter itself is kept), as in CPython's `_splitnetloc`. -/
def dropNetloc : List Char → List Char
  | [] => []
  | c :: cs => if c = '/' || c = '?' || c = '#' then c :: cs else dropNetloc cs

/-- The characters before the first occurrence of `d` (the whole list when `d`
is absent), modelling `url.split(d, 1)[0]`. -/
def takeUntilChar : List Char → Char → List Char
  | [], _ => []
  | c :: cs, d => if c = d then [] else c :: takeUntilChar cs d

/-- The path component of `urllib.parse.urlparse(url)`: strip the scheme,
then the `//netloc`, then the fragment (after `#`) and the query (after `?`). -/
def urlparsePathChars (cs : List Char) : List Char :=
  let u1 := stripScheme cs
  let u2 :=
    match u1 with
    | '/' :: '/' :: rest => dropNetloc rest
    | other => other
  takeUntilChar (takeUntilChar u2 '#') '?'

/-- The characters after the last `/`, modelling `os.path.basename` on a
POSIX path. -/
def basenameChars (cs : List Char) : List Char :=
  (cs.reverse.takeWhile (fun c => c ≠ '/')).reverse

/-- Filename resolution shared by the filter and the used-image-set builder:
`os.path.basename(urlparse(image_url).path)`. -/
def resolveFilename (url : String) : String :=
  String.mk (basenameChars (urlparsePathChars url.data))

/-- Models `s.replace('*', '')`: replacing each occurrence of the single
character `*` by the empty string removes exactly those characters. -/
def removeStar (s : String) : String :=
  String.mk (s.data.filter (fun c => c ≠ '*'))

/-- Python's `s.lower()` (character-wise lowering; the filenames involved are
ASCII). Defined over the character list so the kernel can evaluate it. -/
def lowerString (s : String) : String :=
  String.mk (s.data.map Char.toLower)

/-- Python's `c in s` for a single character `c`. -/
def strContainsChar (s : String) (c : Char) : Bool :=
  s.data.contains c

/-- Python's `s.endswith(suffix)`. -/
def strEndsWith (s suffix : String) : Bool :=
  suffix.data.isSuffixOf s.data

/-- An element of the removed-entries report of
`filter_content_by_existing_images`: the dict
`{'title': item.get('title', 'No title'), 'image': filename}`. -/
structure RemovedImageRec where
  title : JVal
  image : String
  deriving DecidableEq

/-- An element of the removed-entries report of `keep_top_elements`: the dict
`{'position': i, 'title': item.get('title', 'No title'),
'image': item.get('image', 'No image')}`. -/
structure TrimmedRec where
  position : Nat
  title : JVal
  image : JVal
  deriving DecidableEq

/-- The removed-entry record the filter builds for a dropped `item` whose
resolved filename is `filename`. -/
def removedRecOfItem (item : Entry) (filename : String) : RemovedImageRec :=
  { title := entryGetD item "title" (JVal.str "No title"), image := filename }

/-- The loop body of `filter_content_by_existing_images`, folded over the
content list: `lowers` is the lower-cased folder listing. An entry with no
`image` field is kept; a non-string `image` value makes the real script raise
(see `entryImageWF`), here the entry is kept; an empty resolved filename keeps
the entry; otherwise the entry is kept exactly when the lower-cased filename
occurs in `lowers`, and dropped entries are recorded in order. -/
def filterLoop (lowers : List String) : Catalog → Catalog × List RemovedImageRec
  | [] => ([], [])
  | item :: rest =>
    match imageStrOf item with
    | some url =>
      if resolveFilename url ≠ "" then
        if lowers.contains (lowerString (resolveFilename url)) then
          (item :: (filterLoop lowers rest).1, (filterLoop lowers rest).2)
        else
          ((filterLoop lowers rest).1,
           removedRecOfItem item (resolveFilename url) :: (filterLoop lowers rest).2)
      else (item :: (filterLoop lowers rest).1, (filterLoop lowers rest).2)
    | none => (item :: (filterLoop lowers rest).1, (filterLoop lowers rest).2)

/-- `filter_content_by_existing_images(content, images_folder)`. The folder is
`none` when `os.path.exists` fails, in which case the filter is a no-op; the
guard `if not content` of the source returns `([], [])`, which coincides with
the loop's value on the empty list. -/
def filterContentByExistingImages (content : Catalog) (folder : Option (List String)) :
    Catalog × List RemovedImageRec :=
  match folder with
  | none => (content, [])
  | some fs => filterLoop (fs.map lowerString) content

/-- The trimmed-report record of `keep_top_elements` for `item` at 1-based
position `pos`. -/
def trimmedOfItem (pos : Nat) (item : Entry) : TrimmedRec :=
  { position := pos,
    title := entryGetD item "title" (JVal.str "No title"),
    image := entryGetD item "image" (JVal.str "No image") }

/-- The reporting loop of `keep_top_elements`:
`for i, item in enumerate(content[limit:], limit + 1)`. -/
def buildTrimmed (pos : Nat) : Catalog → List TrimmedRec
  | [] => []
  | item :: rest => trimmedOfItem pos item :: buildTrimmed (pos + 1) rest

/-- `keep_top_elements(content, limit)`. The source's `if not content` guard
returns `([], [])`, which coincides with the `length ≤ limit` branch. -/
def keepTopElements (content : Catalog) (limit : Nat) : Catalog × List TrimmedRec :=
  if content.length ≤ limit then (content, [])
  else (content.take limit, buildTrimmed (limit + 1) (content.drop limit))

/-- In-place update `item[key] = nv` for a key that is already present: the
value at the first occurrence of `key` is replaced, every other pair is kept
in place (Python dicts keep the position of an existing key on assignment). -/
def setFieldVal : Entry → String → JVal → Entry
  | [], _, _ => []
  | (k, v) :: rest, key, nv =>
    if k = key then (k, nv) :: rest else (k, v) :: setFieldVal rest key nv

/-- One iteration of the inner loop of `sanitize_asterisks` for a single key:
`if key in item and isinstance(item[key], str)`, replace `*` by the empty
string, assign and count 1 only when the value actually changed. -/
def sanitizeKey (e : Entry) (key : String) : Entry × Nat :=
  match (lookupField e key).bind asStr with
  | some s =>
    if removeStar s ≠ s then (setFieldVal e key (JVal.str (removeStar s)), 1)
    else (e, 0)
  | none => (e, 0)

/-- The per-entry body of `sanitize_asterisks`: the inner loop runs over the
keys `('title', 'description')` in order. -/
def sanitizeEntry (e : Entry) : Entry × Nat :=
  ((sanitizeKey (sanitizeKey e "title").1 "description").1,
   (sanitizeKey e "title").2 + (sanitizeKey (sanitizeKey e "title").1 "description").2)

/-- `sanitize_asterisks(content)`: entry list with `*` stripped from string
`title`/`description` fields, together with the change counter. The source's
`if not content` guard coincides with the empty case. -/
def sanitizeAsterisks : Catalog → Catalog × Nat
  | [] => ([], 0)
  | e :: rest =>
    ((sanitizeEntry e).1 :: (sanitizeAsterisks rest).1,
     (sanitizeEntry e).2 + (sanitizeAsterisks rest).2)

/-- `get_images_used_in_content(content)`: the set (here: a list, used only
through membership) of lower-cased resolved filenames of the entries, skipping
entries without an `image` field and empty resolutions. -/
def getImagesUsedInContent : Catalog → List String
  | [] => []
  | item :: rest =>
    match imageStrOf item with
    | some url =>
      if resolveFilename url ≠ "" then
        lowerString (resolveFilename url) :: getImagesUsedInContent rest
      else getImagesUsedInContent rest
    | none => getImagesUsedInContent rest

/-- The recognized image extensions of `remove_unused_images`. -/
def imageExtensions : List String :=
  [".jpg", ".jpeg", ".png", ".gif", ".bmp", ".webp"]

/-- The extension check `filename.lower().endswith(('.jpg', ...))`. -/
def isImageFile (f : String) : Bool :=
  imageExtensions.any (fun ext => strEndsWith (lowerString f) ext)

/-- The used set of the reaper: `get_images_used_in_content(content)` with
`'fallbackimage.png'` added. -/
def usedWithFallback (content : Catalog) : List String :=
  "fallbackimage.png" :: getImagesUsedInContent content

/-- The deletion condition of the reaper's loop for one folder file. -/
def shouldReap (used : List String) (f : String) : Bool :=
  isImageFile f && !(used.contains (lowerString f))

/-- `remove_unused_images(content, images_folder)`, returning the folder state
after the pass together with the removed-files report. Mirrors the source's
guards in order: `if not content` first (nothing is deleted for an empty
catalog), then the missing-folder check; in the model every `os.remove`
succeeds. -/
def removeUnusedImages (content : Catalog) (folder : Option (List String)) :
    Option (List String) × List String :=
  if content.isEmpty then (folder, [])
  else
    match folder with
    | none => (none, [])
    | some fs =>
      (some (fs.filter (fun f => !shouldReap (usedWithFallback content) f)),
       fs.filter (shouldReap (usedWithFallback content)))

/-- `remove_percent_images(images_folder)`: folder state after deleting every
file whose name contains `%`, with the removed-files report. -/
def removePercentImages : Option (List String) → Option (List String) × List String
  | none => (none, [])
  | some fs =>
    (some (fs.filter (fun f => !strContainsChar f '%')),
     fs.filter (fun f => strContainsChar f '%'))

/-- The filesystem state the script acts on: the parsed catalog file (`none`
when missing or malformed, so that `load_json_content` returns `None`) and the
flat image folder listing (`none` when the folder does not exist). -/
structure FSState where
  catalogFile : Option Catalog
  folder : Option (List String)
  deriving DecidableEq

/-- Everything one run of `main()` produces: the final filesystem state, the
process exit code, and the per-step reports printed to the console. -/
structure RunResult where
  state : FSState
  exitCode : Nat
  removedPercent : List String
  removedEntries : List RemovedImageRec
  trimmedEntries : List TrimmedRec
  sanitizeChanges : Nat
  saveInvoked : Bool
  removedImages : List String
  deriving DecidableEq

/-- The removed-entries report of step 1 of `main()`. -/
def removedRepOf (content : Catalog) (folder1 : Option (List String)) :
    List RemovedImageRec :=
  (filterContentByExistingImages content folder1).2

/-- The catalog after steps 1 and 2 of `main()` (filter, then top-30). -/
def keptOf (content : Catalog) (folder1 : Option (List String)) : Catalog :=
  (keepTopElements (filterContentByExistingImages content folder1).1 30).1

/-- The trimmed-entries report of step 2 of `main()`. -/
def trimmedRepOf (content : Catalog) (folder1 : Option (List String)) :
    List TrimmedRec :=
  (keepTopElements (filterContentByExistingImages content folder1).1 30).2

/-- The final in-memory catalog of `main()`: filtered, truncated, sanitized. -/
def finalOf (content : Catalog) (folder1 : Option (List String)) : Catalog :=
  (sanitizeAsterisks (keptOf content folder1)).1

/-- The sanitize-changes counter of step 3 of `main()`. -/
def sanitizedCountOf (content : Catalog) (folder1 : Option (List String)) : Nat :=
  (sanitizeAsterisks (keptOf content folder1)).2

/-- The truthiness test `need_save = bool(removed_entries or trimmed_entries
or sanitize_changes)`. -/
def needSaveOf (content : Catalog) (folder1 : Option (List String)) : Bool :=
  !(removedRepOf content folder1).isEmpty || !(trimmedRepOf content folder1).isEmpty ||
    sanitizedCountOf content folder1 != 0

/-- The part of `main()` after a successful load: filter, truncate to 30,
sanitize, save when `removed_entries or trimmed_entries or sanitize_changes`
is truthy, then reap. `saveOk` tells whether `save_json_content` would
succeed; on a failed save the run returns 1 before the reaping step, leaving
the prior on-disk catalog and the folder as they are. -/
def runWithContent (saveOk : Bool) (content : Catalog) (folder1 : Option (List String))
    (removedP : List String) : RunResult :=
  if needSaveOf content folder1 then
    if saveOk then
      { state := { catalogFile := some (finalOf content folder1),
                   folder := (removeUnusedImages (finalOf content folder1) folder1).1 },
        exitCode := 0, removedPercent := removedP,
        removedEntries := removedRepOf content folder1,
        trimmedEntries := trimmedRepOf content folder1,
        sanitizeChanges := sanitizedCountOf content folder1,
        saveInvoked := true,
        removedImages := (removeUnusedImages (finalOf content folder1) folder1).2 }
    else
      { state := { catalogFile := some content, folder := folder1 },
        exitCode := 1, removedPercent := removedP,
        removedEntries := removedRepOf content folder1,
        trimmedEntries := trimmedRepOf content folder1,
        sanitizeChanges := sanitizedCountOf content folder1,
        saveInvoked := true, removedImages := [] }
  else
    { state := { catalogFile := some content,
                 folder := (removeUnusedImages (finalOf content folder1) folder1).1 },
      exitCode := 0, removedPercent := removedP,
      removedEntries := removedRepOf content folder1,
      trimmedEntries := trimmedRepOf content folder1,
      sanitizeChanges := sanitizedCountOf content folder1,
      saveInvoked := false,
      removedImages := (removeUnusedImages (finalOf content folder1) folder1).2 }

/-- One run of `main()`: percent purge first, then load; a failed load returns
1 with nothing further done; otherwise the loaded pipeline on the purged
folder. -/
def runMain (saveOk : Bool) (s : FSState) : RunResult :=
  match s with
  | { catalogFile := none, folder := folder } =>
    { state := { catalogFile := none, folder := (removePercentImages folder).1 },
      exitCode := 1, removedPercent := (removePercentImages folder).2,
      removedEntries := [], trimmedEntries := [], sanitizeChanges := 0,
      saveInvoked := false, removedImages := [] }
  | { catalogFile := some content, folder := folder } =>
    runWithContent saveOk content (removePercentImages folder).1 (removePercentImages folder).2

/-- An entry the real script can process without raising: its `image` field,
when present, is a string (`urlparse` raises a `TypeError` otherwise). -/
def entryImageWF (e : Entry) : Bool :=
  match lookupField e "image" with
  | some v => (asStr v).isSome
  | none => true

/-- Every entry of the catalog is processable (see `entryImageWF`). -/
def contentWF (c : Catalog) : Bool :=
  c.all entryImageWF

/-- The catalog on disk, when it parses at all, is processable. -/
def stateWF (s : FSState) : Bool :=
  match s.catalogFile with
  | some c => contentWF c
  | none => true

/-- The filename an entry points to, per the shared resolution rule: the
basename of the parsed URL path of its `image` field, and `""` when there is
no string `image` field. -/
def resolvedOfItem (item : Entry) : String :=
  match imageStrOf item with
  | some url => resolveFilename url
  | none => ""

/-- The declarative per-entry keep policy of the existence filter: keep when
there is no `image` field, when the resolved filename is empty, or when the
lower-cased resolved filename occurs in the lower-cased folder listing
`lowers`. -/
def keepSpec (lowers : List String) (item : Entry) : Bool :=
  match imageStrOf item with
  | some url =>
    if resolveFilename url = "" then true
    else lowers.contains (lowerString (resolveFilename url))
  | none => true

/-- Pointwise effect of the sanitizer on one field, restricted to one key:
string values at that key lose their `*` characters, everything else is kept
verbatim. -/
def scrubOne (key : String) (kv : String × JVal) : String × JVal :=
  if kv.1 = key then
    match asStr kv.2 with
    | some s => (kv.1, JVal.str (removeStar s))
    | none => kv
  else kv

/-- Pointwise effect of the sanitizer on one field: string values at the keys
`title` and `description` lose their `*` characters, every other field is
kept verbatim. -/
def starScrubKV (kv : String × JVal) : String × JVal :=
  scrubOne "description" (scrubOne "title" kv)

/-- Number of changes the sanitizer makes to one key of one entry: 1 exactly
when the key holds a string whose value actually changes under `*`-removal. -/
def starCount (e : Entry) (key : String) : Nat :=
  match (lookupField e key).bind asStr with
  | some s => if removeStar s ≠ s then 1 else 0
  | none => 0

/-- An entry is clean at a key when sanitizing that key changes nothing. -/
def KeyClean (e : Entry) (key : String) : Prop :=
  ∀ s, (lookupField e key).bind asStr = some s → removeStar s = s

/-- Every file of the folder listing is free of the `%` character (vacuously
true for a missing folder). -/
def NoPercent : Option (List String) → Prop
  | none => True
  | some fs => ∀ f ∈ fs, strContainsChar f '%' = false

theorem strContainsChar_iff (s : String) (c : Char) :
    strContainsChar s c = true ↔ c ∈ s.data := by
  simp [strContainsChar, List.contains]

theorem strContainsChar_false_iff (s : String) (c : Char) :
    strContainsChar s c = false ↔ c ∉ s.data := by
  rw [← Bool.not_eq_true, strContainsChar_iff]

theorem removeStar_removeStar (s : String) : removeStar (removeStar s) = removeStar s := by
  unfold removeStar
  simp [List.filter_filter]

theorem removeStar_eq_self_iff (s : String) :
    removeStar s = s ↔ strContainsChar s '*' = false := by
  rw [strContainsChar_false_iff]
  constructor
  · intro h hmem
    have hd : s.data.filter (fun c => c ≠ '*') = s.data := congrArg String.data h
    have := List.filter_eq_self.mp hd '*' hmem
    simp at this
  · intro h
    have hd : s.data.filter (fun c => c ≠ '*') = s.data := by
      apply List.filter_eq_self.mpr
      intro a ha
      simp only [ne_eq, Bool.not_eq_true', decide_eq_false_iff_not, decide_not]
      intro hEq
      exact h (hEq ▸ ha)
    show String.mk (s.data.filter fun c => c ≠ '*') = s
    rw [hd]

theorem strContains_removeStar (s : String) : strContainsChar (removeStar s) '*' = false := by
  rw [strContainsChar_false_iff]
  intro hmem
  have := List.of_mem_filter hmem
  simp at this

theorem lookupField_setFieldVal_self (e : Entry) (key : String) (nv : JVal)
    (h : (lookupField e key).isSome) :
    lookupField (setFieldVal e key nv) key = some nv := by
  induction e with
  | nil => simp [lookupField] at h
  | cons kv rest ih =>
    obtain ⟨k, v⟩ := kv
    by_cases hk : k = key
    · simp [setFieldVal, lookupField, hk]
    · simp only [lookupField, hk, if_false] at h
      simp [setFieldVal, lookupField, hk, ih h]

theorem lookupField_setFieldVal_ne (e : Entry) (key k2 : String) (nv : JVal)
    (h : k2 ≠ key) :
    lookupField (setFieldVal e key nv) k2 = lookupField e k2 := by
  induction e with
  | nil => simp [setFieldVal]
  | cons kv rest ih =>
    obtain ⟨k, v⟩ := kv
    by_cases hk : k = key
    · subst hk
      simp [setFieldVal, lookupField, Ne.symm h]
    · by_cases hk2 : k = k2
      · subst hk2
        simp [setFieldVal, lookupField, hk]
      · simp [setFieldVal, lookupField, hk, hk2, ih]

theorem sanitizeKey_lookup_ne (e : Entry) (key k2 : String) (h : k2 ≠ key) :
    lookupField (sanitizeKey e key).1 k2 = lookupField e k2 := by
  cases hl : (lookupField e key).bind asStr with
  | none => simp [sanitizeKey, hl]
  | some s =>
    by_cases hs : removeStar s ≠ s
    · simp only [sanitizeKey, hl, if_pos hs]
      exact lookupField_setFieldVal_ne e key k2 _ h
    · simp [sanitizeKey, hl, hs]

theorem sanitizeEntry_lookup_image (e : Entry) :
    lookupField (sanitizeEntry e).1 "image" = lookupField e "image" := by
  unfold sanitizeEntry
  rw [sanitizeKey_lookup_ne _ _ _ (by decide), sanitizeKey_lookup_ne _ _ _ (by decide)]

theorem sanitizeKey_of_clean (e : Entry) (key : String) (h : KeyClean e key) :
    sanitizeKey e key = (e, 0) := by
  cases hl : (lookupField e key).bind asStr with
  | none => simp [sanitizeKey, hl]
  | some s => simp [sanitizeKey, hl, h s hl]

theorem clean_sanitizeKey (e : Entry) (key : String) :
    KeyClean (sanitizeKey e key).1 key := by
  cases hl : (lookupField e key).bind asStr with
  | none =>
    intro s hs
    simp only [sanitizeKey, hl] at hs
    exact Option.noConfusion hs
  | some s0 =>
    by_cases hs0 : removeStar s0 ≠ s0
    · intro s hs
      simp only [sanitizeKey, hl, if_pos hs0] at hs
      have hsome : (lookupField e key).isSome := by
        cases hk : lookupField e key with
        | none => rw [hk] at hl; cases hl
        | some v => rfl
      rw [lookupField_setFieldVal_self e key _ hsome] at hs
      simp only [Option.some_bind, asStr] at hs
      have hse : removeStar s0 = s := by injection hs
      rw [← hse]
      exact removeStar_removeStar s0
    · intro s hs
      simp only [sanitizeKey, hl, if_neg hs0] at hs
      have hse : s0 = s := by injection hs
      rw [← hse]
      exact not_ne_iff.mp hs0

theorem clean_of_lookup_eq (e1 e2 : Entry) (key : String)
    (h : lookupField e1 key = lookupField e2 key) (h2 : KeyClean e2 key) :
    KeyClean e1 key := by
  intro s hs
  rw [h] at hs
  exact h2 s hs

theorem sanitizeEntry_idem (e : Entry) :
    sanitizeEntry (sanitizeEntry e).1 = ((sanitizeEntry e).1, 0) := by
  unfold sanitizeEntry
  have ht : KeyClean (sanitizeKey (sanitizeKey e "title").1 "description").1 "title" := by
    apply clean_of_lookup_eq _ (sanitizeKey e "title").1
    · exact sanitizeKey_lookup_ne _ _ _ (by decide)
    · exact clean_sanitizeKey e "title"
  rw [sanitizeKey_of_clean _ _ ht]
  rw [sanitizeKey_of_clean _ _ (clean_sanitizeKey _ "description")]
  rfl

theorem sanitizeKey_zero (e : Entry) (key : String) (h : (sanitizeKey e key).2 = 0) :
    (sanitizeKey e key).1 = e := by
  cases hl : (lookupField e key).bind asStr with
  | none => simp [sanitizeKey, hl]
  | some s =>
    by_cases hs : removeStar s ≠ s
    · simp only [sanitizeKey, hl, if_pos hs] at h
      cases h
    · simp [sanitizeKey, hl, hs]

theorem sanitizeEntry_zero (e : Entry) (h : (sanitizeEntry e).2 = 0) :
    (sanitizeEntry e).1 = e := by
  unfold sanitizeEntry at *
  simp only [Nat.add_eq_zero] at h
  rw [sanitizeKey_zero _ _ h.2, sanitizeKey_zero _ _ h.1]

theorem sanitizeAsterisks_fst_map (c : Catalog) :
    (sanitizeAsterisks c).1 = c.map (fun e => (sanitizeEntry e).1) := by
  induction c with
  | nil => rfl
  | cons e rest ih => simp [sanitizeAsterisks, ih]

theorem sanitizeAsterisks_idem (c : Catalog) :
    sanitizeAsterisks (sanitizeAsterisks c).1 = ((sanitizeAsterisks c).1, 0) := by
  induction c with
  | nil => rfl
  | cons e rest ih =>
    simp only [sanitizeAsterisks]
    rw [Prod.ext_iff] at ih ⊢
    simp only [sanitizeAsterisks] at ih ⊢
    constructor
    · simp only [sanitizeEntry_idem e, ih.1]
    · simp only [sanitizeEntry_idem e, ih.2]

theorem sanitizeAsterisks_zero (c : Catalog) (h : (sanitizeAsterisks c).2 = 0) :
    (sanitizeAsterisks c).1 = c := by
  induction c with
  | nil => rfl
  | cons e rest ih =>
    simp only [sanitizeAsterisks, Nat.add_eq_zero] at h ⊢
    rw [sanitizeEntry_zero e h.1, ih h.2]

theorem sanitizeAsterisks_length (c : Catalog) :
    (sanitizeAsterisks c).1.length = c.length := by
  rw [sanitizeAsterisks_fst_map]
  exact List.length_map c _

theorem listContains_iff {α : Type} [BEq α] [LawfulBEq α] (l : List α) (a : α) :
    l.contains a = true ↔ a ∈ l := by
  simp [List.contains]

theorem filterLoop_eq (lowers : List String) (c : Catalog) :
    filterLoop lowers c =
      (c.filter (keepSpec lowers),
       (c.filter (fun e => !keepSpec lowers e)).map
         (fun e => removedRecOfItem e (resolvedOfItem e))) := by
  induction c with
  | nil => rfl
  | cons item rest ih =>
    cases him : imageStrOf item with
    | none =>
      have hk : keepSpec lowers item = true := by simp [keepSpec, him]
      simp [filterLoop, him, ih, List.filter_cons, hk]
    | some url =>
      by_cases hemp : resolveFilename url = ""
      · have hk : keepSpec lowers item = true := by simp [keepSpec, him, hemp]
        simp [filterLoop, him, hemp, ih, List.filter_cons, hk]
      · by_cases hmem : lowers.contains (lowerString (resolveFilename url)) = true
        · have hmem2 : lowerString (resolveFilename url) ∈ lowers :=
            (listContains_iff _ _).mp hmem
          have hk : keepSpec lowers item = true := by
            simp [keepSpec, him, hemp, hmem2]
          simp [filterLoop, him, hemp, hmem2, ih, List.filter_cons, hk]
        · have hmem2 : lowerString (resolveFilename url) ∉ lowers := fun hm =>
            hmem ((listContains_iff _ _).mpr hm)
          have hk : keepSpec lowers item = false := by
            simp only [keepSpec, him, if_neg hemp]
            exact Bool.not_eq_true _ ▸ hmem
          have hres : resolvedOfItem item = resolveFilename url := by
            simp [resolvedOfItem, him]
          simp [filterLoop, him, hemp, hmem2, ih, List.filter_cons, hk, hres]

theorem mem_filterLoop_fst (lowers : List String) (c : Catalog) (e : Entry)
    (h : e ∈ (filterLoop lowers c).1) : keepSpec lowers e = true := by
  rw [filterLoop_eq] at h
  exact List.of_mem_filter h

theorem filterLoop_all_keep (lowers : List String) (c : Catalog)
    (h : ∀ e ∈ c, keepSpec lowers e = true) : filterLoop lowers c = (c, []) := by
  rw [filterLoop_eq]
  have h2 : c.filter (fun e => !keepSpec lowers e) = [] := by
    rw [List.filter_eq_nil_iff]
    intro a ha
    simp [h a ha]
  rw [List.filter_eq_self.mpr h, h2]
  rfl

theorem filterLoop_snd_nil (lowers : List String) (c : Catalog)
    (h : (filterLoop lowers c).2 = []) : (filterLoop lowers c).1 = c := by
  rw [filterLoop_eq] at h ⊢
  simp only [List.map_eq_nil_iff] at h
  have hall := List.filter_eq_nil_iff.mp h
  apply List.filter_eq_self.mpr
  intro a ha
  have hna := hall a ha
  cases hkb : keepSpec lowers a with
  | true => rfl
  | false => exact absurd (by simp [hkb]) hna

theorem keepTopElements_of_le (c : Catalog) (n : Nat) (h : c.length ≤ n) :
    keepTopElements c n = (c, []) := by
  simp [keepTopElements, h]

theorem keepTopElements_fst_length (c : Catalog) (n : Nat) :
    (keepTopElements c n).1.length ≤ n := by
  by_cases h : c.length ≤ n
  · rw [keepTopElements_of_le c n h]
    exact h
  · simp only [keepTopElements, h, if_false]
    simp [List.length_take]

theorem keepTopElements_fst_subset (c : Catalog) (n : Nat) :
    ∀ e ∈ (keepTopElements c n).1, e ∈ c := by
  intro e he
  by_cases h : c.length ≤ n
  · simpa [keepTopElements, h] using he
  · simp only [keepTopElements, h, if_false] at he
    exact List.take_subset _ _ he

theorem buildTrimmed_eq_nil_iff (pos : Nat) (l : Catalog) :
    buildTrimmed pos l = [] ↔ l = [] := by
  cases l <;> simp [buildTrimmed]

theorem keepTopElements_snd_nil (c : Catalog) (n : Nat)
    (h : (keepTopElements c n).2 = []) : keepTopElements c n = (c, []) := by
  by_cases hle : c.length ≤ n
  · simp [keepTopElements, hle]
  · exfalso
    simp only [keepTopElements, hle, if_false] at h
    rw [buildTrimmed_eq_nil_iff] at h
    rw [List.drop_eq_nil_iff] at h
    exact hle h

theorem buildTrimmed_length (pos : Nat) (l : Catalog) :
    (buildTrimmed pos l).length = l.length := by
  induction l generalizing pos with
  | nil => rfl
  | cons x xs ih => simp [buildTrimmed, ih]

theorem buildTrimmed_getD (l : Catalog) (pos j : Nat) (hj : j < l.length) (d : TrimmedRec) :
    (buildTrimmed pos l).getD j d = trimmedOfItem (pos + j) (l.getD j []) := by
  induction l generalizing pos j with
  | nil => simp at hj
  | cons x xs ih =>
    cases j with
    | zero => simp [buildTrimmed]
    | succ j2 =>
      simp only [buildTrimmed, List.getD_cons_succ]
      rw [ih (pos + 1) j2 (by simpa using hj)]
      have harith : pos + 1 + j2 = pos + (j2 + 1) := by omega
      rw [harith]

theorem mem_getImagesUsedInContent (c : Catalog) (x : String) :
    x ∈ getImagesUsedInContent c ↔
      ∃ e ∈ c, ∃ url, imageStrOf e = some url ∧ resolveFilename url ≠ "" ∧
        x = lowerString (resolveFilename url) := by
  induction c with
  | nil => simp [getImagesUsedInContent]
  | cons item rest ih =>
    cases him : imageStrOf item with
    | none =>
      simp only [getImagesUsedInContent, him, ih, List.mem_cons]
      constructor
      · rintro ⟨e, he, hrest⟩
        exact ⟨e, Or.inr he, hrest⟩
      · rintro ⟨e, he, url, hurl, hrest⟩
        cases he with
        | inl heq => rw [heq, him] at hurl; cases hurl
        | inr hmem => exact ⟨e, hmem, url, hurl, hrest⟩
    | some url =>
      by_cases hemp : resolveFilename url = ""
      · simp only [getImagesUsedInContent, him, hemp, ne_eq, not_true_eq_false, if_false,
          ih, List.mem_cons]
        constructor
        · rintro ⟨e, he, hrest⟩
          exact ⟨e, Or.inr he, hrest⟩
        · rintro ⟨e, he, url2, hurl2, hne2, hx2⟩
          cases he with
          | inl heq =>
            rw [heq, him] at hurl2
            injection hurl2 with hu
            rw [← hu] at hne2
            exact absurd hemp hne2
          | inr hmem => exact ⟨e, hmem, url2, hurl2, hne2, hx2⟩
      · simp only [getImagesUsedInContent, him, hemp, ne_eq, not_false_eq_true, if_true,
          List.mem_cons, ih]
        constructor
        · rintro (hx | ⟨e, he, hrest⟩)
          · exact ⟨item, Or.inl rfl, url, him, hemp, hx⟩
          · exact ⟨e, Or.inr he, hrest⟩
        · rintro ⟨e, he, url2, hurl2, hne2, hx2⟩
          cases he with
          | inl heq =>
            rw [heq, him] at hurl2
            injection hurl2 with hu
            rw [← hu] at hx2 hne2
            exact Or.inl hx2
          | inr hmem => exact Or.inr ⟨e, hmem, url2, hurl2, hne2, hx2⟩

theorem removeUnusedImages_nil (folder : Option (List String)) :
    removeUnusedImages [] folder = (folder, []) := rfl

theorem removeUnusedImages_cons_some (content : Catalog) (fs : List String)
    (h : content ≠ []) :
    removeUnusedImages content (some fs) =
      (some (fs.filter (fun f => !shouldReap (usedWithFallback content) f)),
       fs.filter (shouldReap (usedWithFallback content))) := by
  cases content with
  | nil => exact absurd rfl h
  | cons e rest => rfl

theorem removeUnusedImages_idem (c : Catalog) (folder : Option (List String)) :
    removeUnusedImages c (removeUnusedImages c folder).1 =
      ((removeUnusedImages c folder).1, []) := by
  cases c with
  | nil => rfl
  | cons e rest =>
    cases folder with
    | none => rfl
    | some fs =>
      rw [removeUnusedImages_cons_some _ _ (by simp),
          removeUnusedImages_cons_some _ _ (by simp)]
      have h1 : (fs.filter (fun f => !shouldReap (usedWithFallback (e :: rest)) f)).filter
          (fun f => !shouldReap (usedWithFallback (e :: rest)) f) =
          fs.filter (fun f => !shouldReap (usedWithFallback (e :: rest)) f) := by
        apply List.filter_eq_self.mpr
        intro a ha
        exact (List.mem_filter.mp ha).2
      have h2 : (fs.filter (fun f => !shouldReap (usedWithFallback (e :: rest)) f)).filter
          (shouldReap (usedWithFallback (e :: rest))) = [] := by
        rw [List.filter_eq_nil_iff]
        intro a ha
        have := (List.mem_filter.mp ha).2
        simp only [Bool.not_eq_true'] at this
        simp [this]
      rw [h1, h2]

theorem noPercent_purge (folder : Option (List String)) :
    NoPercent (removePercentImages folder).1 := by
  cases folder with
  | none => trivial
  | some fs =>
    intro f hf
    have := (List.mem_filter.mp hf).2
    simpa using this

theorem purge_of_noPercent (folder : Option (List String)) (h : NoPercent folder) :
    removePercentImages folder = (folder, []) := by
  cases folder with
  | none => rfl
  | some fs =>
    simp only [removePercentImages]
    have h1 : fs.filter (fun f => !strContainsChar f '%') = fs := by
      apply List.filter_eq_self.mpr
      intro a ha
      simp [h a ha]
    have h2 : fs.filter (fun f => strContainsChar f '%') = [] := by
      rw [List.filter_eq_nil_iff]
      intro a ha
      simp [h a ha]
    rw [h1, h2]

theorem noPercent_reap (c : Catalog) (folder : Option (List String))
    (h : NoPercent folder) : NoPercent (removeUnusedImages c folder).1 := by
  cases c with
  | nil => exact h
  | cons e rest =>
    cases folder with
    | none => trivial
    | some fs =>
      rw [removeUnusedImages_cons_some _ _ (by simp)]
      intro f hf
      exact h f (List.mem_filter.mp hf).1

theorem keepSpec_eq_of_image (l : List String) (e1 e2 : Entry)
    (h : imageStrOf e1 = imageStrOf e2) : keepSpec l e1 = keepSpec l e2 := by
  unfold keepSpec
  rw [h]

theorem imageStrOf_sanitizeEntry (e : Entry) :
    imageStrOf (sanitizeEntry e).1 = imageStrOf e := by
  unfold imageStrOf
  rw [sanitizeEntry_lookup_image]

theorem used_of_mem_content (c : Catalog) (e : Entry) (url : String)
    (he : e ∈ c) (him : imageStrOf e = some url) (hne : resolveFilename url ≠ "") :
    lowerString (resolveFilename url) ∈ getImagesUsedInContent c :=
  (mem_getImagesUsedInContent c _).mpr ⟨e, he, url, him, hne, rfl⟩

theorem getImagesUsed_congr (c1 c2 : Catalog) (h : c1.map imageStrOf = c2.map imageStrOf) :
    getImagesUsedInContent c1 = getImagesUsedInContent c2 := by
  induction c1 generalizing c2 with
  | nil =>
    cases c2 with
    | nil => rfl
    | cons b bs => simp at h
  | cons a as ih =>
    cases c2 with
    | nil => simp at h
    | cons b bs =>
      simp only [List.map_cons, List.cons.injEq] at h
      unfold getImagesUsedInContent
      rw [h.1, ih bs h.2]

theorem getImagesUsed_sanitize (c : Catalog) :
    getImagesUsedInContent (sanitizeAsterisks c).1 = getImagesUsedInContent c := by
  apply getImagesUsed_congr
  rw [sanitizeAsterisks_fst_map, List.map_map]
  apply List.map_congr_left
  intro e _
  exact imageStrOf_sanitizeEntry e

theorem keepSpec_after_reap (fs : List String) (final : Catalog) (e : Entry)
    (he : e ∈ final)
    (hk1 : keepSpec (fs.map lowerString) e = true) :
    keepSpec ((fs.filter (fun f => !shouldReap (usedWithFallback final) f)).map lowerString)
      e = true := by
  cases him : imageStrOf e with
  | none => simp [keepSpec, him]
  | some url =>
    by_cases hemp : resolveFilename url = ""
    · simp [keepSpec, him, hemp]
    · simp only [keepSpec, him, if_neg hemp] at hk1 ⊢
      rw [listContains_iff] at hk1 ⊢
      rw [List.mem_map] at hk1
      obtain ⟨g, hg, hgl⟩ := hk1
      have hused : lowerString (resolveFilename url) ∈ getImagesUsedInContent final :=
        used_of_mem_content final e url he him hemp
      have hreap : shouldReap (usedWithFallback final) g = false := by
        have hgused : (usedWithFallback final).contains (lowerString g) = true := by
          rw [listContains_iff]
          unfold usedWithFallback
          rw [hgl]
          exact List.mem_cons_of_mem _ hused
        unfold shouldReap
        rw [hgused]
        simp
      rw [List.mem_map]
      refine ⟨g, ?_, hgl⟩
      rw [List.mem_filter]
      refine ⟨hg, ?_⟩
      rw [hreap]
      rfl

theorem filter_after_reap (final : Catalog) (fs : List String)
    (hkeep : ∀ e ∈ final, keepSpec (fs.map lowerString) e = true) :
    filterContentByExistingImages final (removeUnusedImages final (some fs)).1 =
      (final, []) := by
  by_cases hnil : final = []
  · subst hnil
    rfl
  · rw [removeUnusedImages_cons_some final fs hnil]
    unfold filterContentByExistingImages
    apply filterLoop_all_keep
    intro e he
    exact keepSpec_after_reap fs final e he (hkeep e he)

theorem filter_after_reap_folder (final : Catalog) (folder1 : Option (List String))
    (hkeep : ∀ fs, folder1 = some fs → ∀ e ∈ final, keepSpec (fs.map lowerString) e = true) :
    filterContentByExistingImages final (removeUnusedImages final folder1).1 =
      (final, []) := by
  cases folder1 with
  | none =>
    have hnone : (removeUnusedImages final none).1 = none := by
      cases final <;> rfl
    rw [hnone]
    rfl
  | some fs => exact filter_after_reap final fs (hkeep fs rfl)

theorem filter_snd_nil_fst (content : Catalog) (folder : Option (List String))
    (h : (filterContentByExistingImages content folder).2 = []) :
    (filterContentByExistingImages content folder).1 = content := by
  cases folder with
  | none => rfl
  | some fs => exact filterLoop_snd_nil _ _ h

theorem final_entries_keep (content : Catalog) (fs : List String)
    (e : Entry) (he : e ∈ finalOf content (some fs)) :
    keepSpec (fs.map lowerString) e = true := by
  unfold finalOf keptOf at he
  rw [sanitizeAsterisks_fst_map, List.mem_map] at he
  obtain ⟨e1, he1, hee⟩ := he
  have he1f : e1 ∈ (filterContentByExistingImages content (some fs)).1 :=
    keepTopElements_fst_subset _ _ e1 he1
  have hk1 : keepSpec (fs.map lowerString) e1 = true := mem_filterLoop_fst _ _ _ he1f
  have him : imageStrOf e = imageStrOf e1 := by
    rw [← hee]
    exact imageStrOf_sanitizeEntry e1
  rw [keepSpec_eq_of_image _ _ _ him]
  exact hk1

theorem finalOf_length_le (content : Catalog) (folder1 : Option (List String)) :
    (finalOf content folder1).length ≤ 30 := by
  unfold finalOf keptOf
  rw [sanitizeAsterisks_length]
  exact keepTopElements_fst_length _ _

theorem sanitize_finalOf (content : Catalog) (folder1 : Option (List String)) :
    sanitizeAsterisks (finalOf content folder1) = (finalOf content folder1, 0) := by
  unfold finalOf
  exact sanitizeAsterisks_idem _

theorem runWithContent_noChanges (saveOk : Bool) (content : Catalog)
    (folder1 : Option (List String)) (rp : List String)
    (hfilter : filterContentByExistingImages content folder1 = (content, []))
    (hlen : content.length ≤ 30)
    (hsan : sanitizeAsterisks content = (content, 0)) :
    runWithContent saveOk content folder1 rp =
      { state := { catalogFile := some content,
                   folder := (removeUnusedImages content folder1).1 },
        exitCode := 0, removedPercent := rp, removedEntries := [], trimmedEntries := [],
        sanitizeChanges := 0, saveInvoked := false,
        removedImages := (removeUnusedImages content folder1).2 } := by
  have hrem : removedRepOf content folder1 = [] := by
    unfold removedRepOf
    rw [hfilter]
  have hkept : keptOf content folder1 = content := by
    unfold keptOf
    rw [hfilter, keepTopElements_of_le _ _ hlen]
  have htrim : trimmedRepOf content folder1 = [] := by
    unfold trimmedRepOf
    rw [hfilter, keepTopElements_of_le _ _ hlen]
  have hfin : finalOf content folder1 = content := by
    unfold finalOf
    rw [hkept, hsan]
  have hcnt : sanitizedCountOf content folder1 = 0 := by
    unfold sanitizedCountOf
    rw [hkept, hsan]
  have hns : needSaveOf content folder1 = false := by
    unfold needSaveOf
    rw [hrem, htrim, hcnt]
    rfl
  unfold runWithContent
  rw [hns, if_neg (by simp : ¬(false = true))]
  rw [hfin, hrem, htrim, hcnt]

theorem needSave_false_final (content : Catalog) (folder1 : Option (List String))
    (hns : needSaveOf content folder1 = false) :
    finalOf content folder1 = content := by
  unfold needSaveOf at hns
  rw [Bool.or_eq_false_iff, Bool.or_eq_false_iff] at hns
  obtain ⟨⟨h1, h2⟩, h3⟩ := hns
  rw [Bool.not_eq_false'] at h1 h2
  have hremnil : removedRepOf content folder1 = [] := List.isEmpty_eq_true.mp h1
  have htrimnil : trimmedRepOf content folder1 = [] := List.isEmpty_eq_true.mp h2
  have hcnt0 : sanitizedCountOf content folder1 = 0 := bne_eq_false_iff_eq.mp h3
  have hfst : (filterContentByExistingImages content folder1).1 = content :=
    filter_snd_nil_fst _ _ hremnil
  have hkept : keptOf content folder1 = content := by
    unfold keptOf
    have hkt := keepTopElements_snd_nil
      ((filterContentByExistingImages content folder1).1) 30 htrimnil
    rw [hkt, hfst]
  unfold finalOf
  unfold sanitizedCountOf at hcnt0
  rw [hkept] at hcnt0 ⊢
  exact sanitizeAsterisks_zero content hcnt0

theorem runWithContent_state (content : Catalog) (folder1 : Option (List String))
    (rp : List String) :
    (runWithContent true content folder1 rp).state =
      { catalogFile := some (finalOf content folder1),
        folder := (removeUnusedImages (finalOf content folder1) folder1).1 } := by
  by_cases hns : needSaveOf content folder1 = true
  · unfold runWithContent
    rw [hns, if_pos rfl, if_pos rfl]
  · have hns2 : needSaveOf content folder1 = false := by
      revert hns
      cases needSaveOf content folder1 <;> simp
    have hfin := needSave_false_final content folder1 hns2
    unfold runWithContent
    rw [hns2, if_neg (by simp : ¬(false = true)), hfin]

theorem runWithContent_idem (content : Catalog) (folder1 : Option (List String))
    (rp : List String) (hnp : NoPercent folder1) :
    runMain true (runWithContent true content folder1 rp).state =
      { state := (runWithContent true content folder1 rp).state, exitCode := 0,
        removedPercent := [], removedEntries := [], trimmedEntries := [],
        sanitizeChanges := 0, saveInvoked := false, removedImages := [] } := by
  rw [runWithContent_state content folder1 rp]
  have hnp2 : NoPercent (removeUnusedImages (finalOf content folder1) folder1).1 :=
    noPercent_reap _ folder1 hnp
  have hfilter2 : filterContentByExistingImages (finalOf content folder1)
      (removeUnusedImages (finalOf content folder1) folder1).1 =
      (finalOf content folder1, []) := by
    apply filter_after_reap_folder
    intro fs hfs e he
    rw [hfs] at he
    exact final_entries_keep content fs e he
  have hmain : runMain true
      { catalogFile := some (finalOf content folder1),
        folder := (removeUnusedImages (finalOf content folder1) folder1).1 } =
      runWithContent true (finalOf content folder1)
        (removePercentImages (removeUnusedImages (finalOf content folder1) folder1).1).1
        (removePercentImages (removeUnusedImages (finalOf content folder1) folder1).1).2 :=
    rfl
  rw [hmain, purge_of_noPercent _ hnp2]
  rw [runWithContent_noChanges true (finalOf content folder1)
      (removeUnusedImages (finalOf content folder1) folder1).1 []
      hfilter2 (finalOf_length_le content folder1) (sanitize_finalOf content folder1)]
  rw [removeUnusedImages_idem (finalOf content folder1) folder1]

theorem lookup_none_no_key (e : Entry) (key : String) (h : lookupField e key = none) :
    ∀ kv ∈ e, kv.1 ≠ key := by
  induction e with
  | nil => intro kv hkv; cases hkv
  | cons hd rest ih =>
    obtain ⟨k, v⟩ := hd
    by_cases hk : k = key
    · simp [lookupField, hk] at h
    · intro kv hkv
      cases hkv with
      | head => exact hk
      | tail _ hmem =>
        simp only [lookupField, hk, if_false] at h
        exact ih h kv hmem

theorem scrubOne_fst (key : String) (kv : String × JVal) : (scrubOne key kv).1 = kv.1 := by
  unfold scrubOne
  by_cases hk : kv.1 = key
  · cases asStr kv.2 <;> simp [hk]
  · simp [hk]

theorem scrubOne_of_ne (key : String) (kv : String × JVal) (h : kv.1 ≠ key) :
    scrubOne key kv = kv := by
  simp [scrubOne, h]

theorem lookup_of_mem_nodup (e : Entry) (kv : String × JVal) (h : kv ∈ e)
    (hnd : (e.map Prod.fst).Nodup) : lookupField e kv.1 = some kv.2 := by
  induction e with
  | nil => cases h
  | cons hd rest ih =>
    obtain ⟨k, v⟩ := hd
    simp only [List.map_cons, List.nodup_cons] at hnd
    cases h with
    | head => simp [lookupField]
    | tail _ hmem =>
      have hk : k ≠ kv.1 := by
        intro hkk
        exact hnd.1 (hkk ▸ (List.mem_map.mpr ⟨kv, hmem, rfl⟩))
      simp only [lookupField, hk, if_false]
      exact ih hmem hnd.2

theorem map_scrubOne_id_of_no_key (e : Entry) (key : String)
    (h : ∀ kv ∈ e, kv.1 ≠ key) : e.map (scrubOne key) = e := by
  have : e.map (scrubOne key) = e.map id := by
    apply List.map_congr_left
    intro kv hkv
    exact scrubOne_of_ne key kv (h kv hkv)
  rw [this, List.map_id]

theorem lookup_map_scrubOne_ne (e : Entry) (key k2 : String) (h : k2 ≠ key) :
    lookupField (e.map (scrubOne key)) k2 = lookupField e k2 := by
  induction e with
  | nil => rfl
  | cons hd rest ih =>
    obtain ⟨k, v⟩ := hd
    simp only [List.map_cons]
    by_cases hk : k = key
    · have hkk2 : ¬(k = k2) := fun hx => h (hx.symm.trans hk)
      cases hs : asStr v with
      | some s =>
        have hscrub : scrubOne key (k, v) = (k, JVal.str (removeStar s)) := by
          simp [scrubOne, hk, hs]
        rw [hscrub]
        simp [lookupField, hkk2, ih]
      | none =>
        have hscrub : scrubOne key (k, v) = (k, v) := by
          simp [scrubOne, hk, hs]
        rw [hscrub]
        simp [lookupField, hkk2, ih]
    · have hscrub : scrubOne key (k, v) = (k, v) := scrubOne_of_ne key (k, v) hk
      rw [hscrub]
      by_cases hk2 : k = k2
      · subst hk2
        simp [lookupField]
      · simp [lookupField, hk2, ih]

theorem setFieldVal_eq_map_scrub (e : Entry) (key s : String)
    (hnd : (e.map Prod.fst).Nodup) (hl : lookupField e key = some (JVal.str s)) :
    setFieldVal e key (JVal.str (removeStar s)) = e.map (scrubOne key) := by
  induction e with
  | nil => cases hl
  | cons hd rest ih =>
    obtain ⟨k, v⟩ := hd
    simp only [List.map_cons, List.nodup_cons] at hnd
    by_cases hk : k = key
    · subst hk
      simp only [lookupField, if_pos rfl] at hl
      injection hl with hv
      subst hv
      have hrest : rest.map (scrubOne k) = rest := by
        apply map_scrubOne_id_of_no_key
        intro kv hkv hkey
        exact hnd.1 (hkey ▸ (List.mem_map.mpr ⟨kv, hkv, rfl⟩))
      simp [setFieldVal, scrubOne, asStr, hrest]
    · simp only [lookupField, hk, if_false] at hl
      simp only [setFieldVal, List.map_cons]
      rw [if_neg hk, scrubOne_of_ne key (k, v) hk, ih hnd.2 hl]

theorem sanitizeKey_eq_map (e : Entry) (key : String)
    (hnd : (e.map Prod.fst).Nodup) :
    (sanitizeKey e key).1 = e.map (scrubOne key) ∧
      (sanitizeKey e key).2 = starCount e key := by
  cases hl : (lookupField e key).bind asStr with
  | none =>
    have hmap : e.map (scrubOne key) = e := by
      have : e.map (scrubOne key) = e.map id := by
        apply List.map_congr_left
        intro kv hkv
        by_cases hk : kv.1 = key
        · have hlk : lookupField e key = some kv.2 := hk ▸ lookup_of_mem_nodup e kv hkv hnd
          rw [hlk] at hl
          simp only [Option.some_bind] at hl
          simp [scrubOne, hk, hl]
        · exact scrubOne_of_ne key kv hk
      rw [this, List.map_id]
    constructor
    · simp [sanitizeKey, hl, hmap]
    · simp [sanitizeKey, starCount, hl]
  | some s =>
    have hlk : lookupField e key = some (JVal.str s) := by
      cases hk : lookupField e key with
      | none => rw [hk] at hl; cases hl
      | some v =>
        rw [hk] at hl
        simp only [Option.some_bind] at hl
        cases v <;> simp_all [asStr]
    by_cases hs : removeStar s ≠ s
    · constructor
      · simp only [sanitizeKey, hl, if_pos hs]
        exact setFieldVal_eq_map_scrub e key s hnd hlk
      · simp [sanitizeKey, starCount, hl, hs]
    · have hss : removeStar s = s := not_ne_iff.mp hs
      have hmap : e.map (scrubOne key) = e := by
        have : e.map (scrubOne key) = e.map id := by
          apply List.map_congr_left
          intro kv hkv
          by_cases hk : kv.1 = key
          · have hlk2 : lookupField e key = some kv.2 :=
              hk ▸ lookup_of_mem_nodup e kv hkv hnd
            rw [hlk] at hlk2
            injection hlk2 with hv
            have : scrubOne key kv = (kv.1, JVal.str (removeStar s)) := by
              simp [scrubOne, hk, ← hv, asStr]
            rw [this, hss, hv]
            simp
          · exact scrubOne_of_ne key kv hk
        rw [this, List.map_id]
      constructor
      · simp [sanitizeKey, hl, hs, hmap]
      · simp [sanitizeKey, starCount, hl, hs]

theorem nodup_map_scrubOne (e : Entry) (key : String)
    (hnd : (e.map Prod.fst).Nodup) :
    ((e.map (scrubOne key)).map Prod.fst).Nodup := by
  have : (e.map (scrubOne key)).map Prod.fst = e.map Prod.fst := by
    rw [List.map_map]
    apply List.map_congr_left
    intro kv _
    exact scrubOne_fst key kv
  rw [this]
  exact hnd

theorem sanitizeEntry_eq_map (e : Entry) (hnd : (e.map Prod.fst).Nodup) :
    sanitizeEntry e =
      (e.map starScrubKV, starCount e "title" + starCount e "description") := by
  have r1 := sanitizeKey_eq_map e "title" hnd
  have hnd2 := nodup_map_scrubOne e "title" hnd
  have r2 := sanitizeKey_eq_map (e.map (scrubOne "title")) "description" hnd2
  have hctd : starCount (e.map (scrubOne "title")) "description" =
      starCount e "description" := by
    unfold starCount
    rw [lookup_map_scrubOne_ne e "title" "description" (by decide)]
  unfold sanitizeEntry
  rw [r1.1, r1.2, r2.1, r2.2, hctd, List.map_map]
  rfl

theorem sanitizeAsterisks_eq_map (c : Catalog)
    (hnd : ∀ e ∈ c, ((e : Entry).map Prod.fst).Nodup) :
    (sanitizeAsterisks c).1 = c.map (fun e => e.map starScrubKV) ∧
      (sanitizeAsterisks c).2 =
        (c.map (fun e => starCount e "title" + starCount e "description")).sum := by
  induction c with
  | nil => exact ⟨rfl, rfl⟩
  | cons e rest ih =>
    have hie := sanitizeEntry_eq_map e (hnd e (List.mem_cons_self e rest))
    have hrest := ih (fun x hx => hnd x (List.mem_cons_of_mem e hx))
    constructor
    · simp only [sanitizeAsterisks, hie, hrest.1, List.map_cons]
    · simp only [sanitizeAsterisks, hie, hrest.2, List.map_cons, List.sum_cons]

theorem needSaveOf_iff (content : Catalog) (folder1 : Option (List String)) :
    needSaveOf content folder1 = true ↔
      (removedRepOf content folder1 ≠ [] ∨ trimmedRepOf content folder1 ≠ [] ∨
        sanitizedCountOf content folder1 ≠ 0) := by
  unfold needSaveOf
  simp [Bool.or_eq_true, or_assoc]

theorem runWithContent_reports (saveOk : Bool) (content : Catalog)
    (folder1 : Option (List String)) (rp : List String) :
    (runWithContent saveOk content folder1 rp).removedEntries = removedRepOf content folder1 ∧
    (runWithContent saveOk content folder1 rp).trimmedEntries = trimmedRepOf content folder1 ∧
    (runWithContent saveOk content folder1 rp).sanitizeChanges =
      sanitizedCountOf content folder1 ∧
    (runWithContent saveOk content folder1 rp).saveInvoked = needSaveOf content folder1 ∧
    (runWithContent saveOk content folder1 rp).removedPercent = rp := by
  unfold runWithContent
  by_cases hns : needSaveOf content folder1 = true
  · rw [hns]
    cases saveOk <;> simp
  · have hns2 : needSaveOf content folder1 = false := by
      cases h : needSaveOf content folder1
      · rfl
      · exact absurd h hns
    rw [hns2]
    simp

theorem runWithContent_exit (saveOk : Bool) (content : Catalog)
    (folder1 : Option (List String)) (rp : List String) :
    (runWithContent saveOk content folder1 rp).exitCode =
      if (needSaveOf content folder1 && !saveOk) then 1 else 0 := by
  unfold runWithContent
  by_cases hns : needSaveOf content folder1 = true
  · rw [hns]
    cases saveOk <;> simp
  · have hns2 : needSaveOf content folder1 = false := by
      cases h : needSaveOf content folder1
      · rfl
      · exact absurd h hns
    rw [hns2]
    simp

theorem runWithContent_file_noSave (saveOk : Bool) (content : Catalog)
    (folder1 : Option (List String)) (rp : List String)
    (h : needSaveOf content folder1 = false) :
    (runWithContent saveOk content folder1 rp).state.catalogFile = some content := by
  unfold runWithContent
  rw [h, if_neg (by simp : ¬(false = true))]

theorem runMain_idem (s : FSState) (h0 : (runMain true s).exitCode = 0) :
    runMain true (runMain true s).state =
      { state := (runMain true s).state, exitCode := 0, removedPercent := [],
        removedEntries := [], trimmedEntries := [], sanitizeChanges := 0,
        saveInvoked := false, removedImages := [] } := by
  obtain ⟨file, folder⟩ := s
  cases file with
  | none => simp [runMain] at h0
  | some content =>
    have hr : runMain true { catalogFile := some content, folder := folder } =
        runWithContent true content (removePercentImages folder).1
          (removePercentImages folder).2 := rfl
    rw [hr]
    exact runWithContent_idem content _ _ (noPercent_purge folder)

/-- C1: for every processable catalog and existing image folder, the
image-existence filter keeps exactly the entries allowed by the per-entry
policy `keepSpec` (no `image` field, or empty resolved filename, or a
case-insensitive match in the folder listing), in input order, and records the
title and resolved filename of each dropped entry, in order; when the folder
does not exist it returns the input unchanged with an empty removed list. -/
theorem claim1_existence_filter (content : Catalog) (fs : List String)
    (_hwf : contentWF content = true) :
    filterContentByExistingImages content (some fs) =
      (content.filter (keepSpec (fs.map lowerString)),
       (content.filter (fun e => !keepSpec (fs.map lowerString) e)).map
         (fun e => removedRecOfItem e (resolvedOfItem e)))
    ∧ filterContentByExistingImages content none = (content, []) :=
  ⟨filterLoop_eq (fs.map lowerString) content, rfl⟩

/-- Witness for C1 at a concrete catalog and folder: the entry whose image
`Foo.PNG` matches `foo.png` case-insensitively is kept, the entry whose image
is missing is dropped and recorded. -/
theorem claim1_witness :
    contentWF
      [[("title", JVal.str "A"), ("image", JVal.str "http://x/Foo.PNG")],
       [("title", JVal.str "B"), ("image", JVal.str "http://x/missing.png")]] = true ∧
    filterContentByExistingImages
      [[("title", JVal.str "A"), ("image", JVal.str "http://x/Foo.PNG")],
       [("title", JVal.str "B"), ("image", JVal.str "http://x/missing.png")]]
      (some ["foo.png"]) =
      ([[("title", JVal.str "A"), ("image", JVal.str "http://x/Foo.PNG")]],
       [{ title := JVal.str "B", image := "missing.png" }]) :=
  ⟨by decide, by
    rw [(claim1_existence_filter _ ["foo.png"] (by decide)).1]
    decide⟩

/-- C3: a file whose name lowers to `fallbackimage.png` is never in the
reaper's removed list, for any catalog and any folder state. -/
theorem claim3_fallback_protected (content : Catalog) (folder : Option (List String))
    (f : String) (hf : lowerString f = "fallbackimage.png") :
    f ∉ (removeUnusedImages content folder).2 := by
  cases content with
  | nil =>
    rw [removeUnusedImages_nil]
    simp
  | cons e rest =>
    cases folder with
    | none =>
      rw [show removeUnusedImages (e :: rest) none = (none, []) from rfl]
      simp
    | some fs =>
      rw [removeUnusedImages_cons_some _ _ (by simp)]
      intro hmem
      have hr := (List.mem_filter.mp hmem).2
      unfold shouldReap at hr
      have hcont : (usedWithFallback (e :: rest)).contains (lowerString f) = true := by
        rw [listContains_iff]
        unfold usedWithFallback
        rw [hf]
        exact List.mem_cons_self _ _
      rw [hcont] at hr
      simp at hr

/-- Witness for C3: a differently-cased fallback file in a folder with a
catalog that does not reference it survives the reaper. -/
theorem claim3_witness :
    "FallbackImage.PNG" ∉
      (removeUnusedImages [[("title", JVal.str "A")]]
        (some ["FallbackImage.PNG", "junk.png"])).2 :=
  claim3_fallback_protected _ _ _ (by decide)

/-- C4: the truncator returns the input unchanged with an empty removed list
when the length is within the limit; otherwise it keeps exactly the first
`limit` entries in order, and the removed list records the dropped entries in
order with their original 1-based positions `limit+1, limit+2, ...`, their
titles and image values. -/
theorem claim4_truncator (content : Catalog) (limit : Nat) :
    (content.length ≤ limit → keepTopElements content limit = (content, [])) ∧
    (limit < content.length →
      (keepTopElements content limit).1 = content.take limit ∧
      (keepTopElements content limit).2.length = content.length - limit ∧
      ∀ j, j < content.length - limit →
        (keepTopElements content limit).2.getD j ⟨0, JVal.null, JVal.null⟩ =
          { position := limit + 1 + j,
            title := entryGetD (content.getD (limit + j) []) "title" (JVal.str "No title"),
            image :=
              entryGetD (content.getD (limit + j) []) "image" (JVal.str "No image") }) := by
  constructor
  · intro h
    exact keepTopElements_of_le content limit h
  · intro h
    have hnle : ¬content.length ≤ limit := by omega
    refine ⟨?_, ?_, ?_⟩
    · simp [keepTopElements, hnle]
    · simp [keepTopElements, hnle, buildTrimmed_length]
    · intro j hj
      have hj2 : j < (content.drop limit).length := by
        rw [List.length_drop]
        exact hj
      simp only [keepTopElements, hnle, if_false]
      rw [buildTrimmed_getD (content.drop limit) (limit + 1) j hj2]
      have hdg : (content.drop limit).getD j [] = content.getD (limit + j) [] := by
        rw [List.getD_eq_getElem?_getD, List.getD_eq_getElem?_getD, List.getElem?_drop]
      rw [hdg]
      rfl

/-- Witness for C4 at a concrete two-entry catalog with limit 1: the head is
kept, the second entry is recorded at position 2 with its title and the
`No image` placeholder. -/
theorem claim4_witness :
    keepTopElements [[("title", JVal.str "A")], [("title", JVal.str "B")]] 1 =
      ([[("title", JVal.str "A")]],
       [(⟨2, JVal.str "B", JVal.str "No image"⟩ : TrimmedRec)]) ∧
    keepTopElements [[("title", JVal.str "A")]] 1 = ([[("title", JVal.str "A")]], []) := by
  constructor
  · have h := (claim4_truncator [[("title", JVal.str "A")], [("title", JVal.str "B")]] 1).2
      (by decide)
    have hget := h.2.2 0 (by decide)
    have hlen := h.2.1
    have hfst := h.1
    revert hget hlen hfst
    decide
  · exact (claim4_truncator [[("title", JVal.str "A")]] 1).1 (by decide)

/-- C5: the sanitizer maps each entry pointwise — string `title` and
`description` values lose every `*`, all other fields and all entries are kept
verbatim in order — and its counter adds 1 per (entry, field) pair whose value
actually changed. Entries are Python dicts, so their keys are distinct. -/
theorem claim5_sanitizer (c : Catalog)
    (hnd : ∀ e ∈ c, ((e : Entry).map Prod.fst).Nodup) :
    (sanitizeAsterisks c).1 = c.map (fun e => e.map starScrubKV) ∧
    (sanitizeAsterisks c).2 =
      (c.map (fun e => starCount e "title" + starCount e "description")).sum :=
  sanitizeAsterisks_eq_map c hnd

/-- Witness for C5: one entry with `*` in the title, one with `*` in a
non-designated field (kept verbatim), count 1. -/
theorem claim5_witness :
    (sanitizeAsterisks
      [[("title", JVal.str "A*"), ("other", JVal.str "x*y")],
       [("description", JVal.str "plain")]]).1 =
      [[("title", JVal.str "A"), ("other", JVal.str "x*y")],
       [("description", JVal.str "plain")]] ∧
    (sanitizeAsterisks
      [[("title", JVal.str "A*"), ("other", JVal.str "x*y")],
       [("description", JVal.str "plain")]]).2 = 1 := by
  have h := claim5_sanitizer
    [[("title", JVal.str "A*"), ("other", JVal.str "x*y")],
     [("description", JVal.str "plain")]] (by decide)
  constructor
  · rw [h.1]
    decide
  · rw [h.2]
    decide

/-- C10: with an empty final catalog the reaper deletes nothing: the folder is
left as it is and the removed list is empty, whatever the folder contains. -/
theorem claim10_empty_catalog_reaper (folder : Option (List String)) :
    removeUnusedImages [] folder = (folder, []) :=
  removeUnusedImages_nil folder

/-- Counterexample to C2 as stated: with an empty final catalog, `stale.png`
is an image-typed file whose lower-cased name is not in the used set described
by the claim (the catalog references nothing and it is not the fallback), so
the claim demands its deletion — but the reaper removes nothing. -/
theorem claim2_counterexample :
    (removeUnusedImages [] (some ["stale.png"])).2 = [] ∧
    isImageFile "stale.png" = true ∧
    getImagesUsedInContent [] = [] ∧
    lowerString "stale.png" ≠ "fallbackimage.png" := by decide

/-- C2 (amended to non-empty final catalogs): the reaper's removed list holds
exactly the folder files with a recognized image extension whose lower-cased
name is neither the fallback name nor the lower-cased resolved filename of any
catalog entry; files without a recognized image extension are never deleted. -/
theorem claim2_reaper_spec (content : Catalog) (fs : List String) (f : String)
    (hne : content ≠ []) (_hwf : contentWF content = true) :
    (f ∈ (removeUnusedImages content (some fs)).2 ↔
      (f ∈ fs ∧ isImageFile f = true ∧ lowerString f ≠ "fallbackimage.png" ∧
        ¬ ∃ e ∈ content, ∃ url, imageStrOf e = some url ∧ resolveFilename url ≠ "" ∧
            lowerString f = lowerString (resolveFilename url))) ∧
    (isImageFile f = false → f ∉ (removeUnusedImages content (some fs)).2) := by
  have hmain : ∀ ff : String, ff ∈ (removeUnusedImages content (some fs)).2 ↔
      (ff ∈ fs ∧ shouldReap (usedWithFallback content) ff = true) := by
    intro ff
    rw [removeUnusedImages_cons_some content fs hne]
    exact List.mem_filter
  constructor
  · rw [hmain f]
    constructor
    · rintro ⟨hf, hr⟩
      unfold shouldReap at hr
      rw [Bool.and_eq_true] at hr
      obtain ⟨himg, hnc⟩ := hr
      rw [Bool.not_eq_true'] at hnc
      refine ⟨hf, himg, ?_, ?_⟩
      · intro hfb
        have hc : (usedWithFallback content).contains (lowerString f) = true := by
          rw [listContains_iff]
          unfold usedWithFallback
          rw [hfb]
          exact List.mem_cons_self _ _
        rw [hc] at hnc
        cases hnc
      · rintro ⟨e, he, url, hurl, hne2, hlf⟩
        have hc : (usedWithFallback content).contains (lowerString f) = true := by
          rw [listContains_iff]
          unfold usedWithFallback
          rw [hlf]
          exact List.mem_cons_of_mem _ (used_of_mem_content content e url he hurl hne2)
        rw [hc] at hnc
        cases hnc
    · rintro ⟨hf, himg, hfb, hnex⟩
      refine ⟨hf, ?_⟩
      unfold shouldReap
      rw [himg, Bool.true_and, Bool.not_eq_true']
      cases hc : (usedWithFallback content).contains (lowerString f)
      · rfl
      · exfalso
        rw [listContains_iff] at hc
        unfold usedWithFallback at hc
        rcases List.mem_cons.mp hc with h1 | h2
        · exact hfb h1
        · exact hnex ((mem_getImagesUsedInContent content _).mp h2)
  · intro hnimg
    rw [hmain f]
    rintro ⟨hf, hr⟩
    unfold shouldReap at hr
    rw [hnimg] at hr
    simp at hr

/-- Witness for C2 (amended): a referenced image and the fallback survive
while an unreferenced image is deleted. -/
theorem claim2_witness :
    "stale.png" ∈ (removeUnusedImages [[("image", JVal.str "http://x/a.png")]]
      (some ["a.png", "stale.png", "fallbackImage.png"])).2 ∧
    isImageFile "stale.png" = true ∧
    "a.png" ∉ (removeUnusedImages [[("image", JVal.str "http://x/a.png")]]
      (some ["a.png", "stale.png", "fallbackImage.png"])).2 := by
  have h := claim2_reaper_spec [[("image", JVal.str "http://x/a.png")]]
    ["a.png", "stale.png", "fallbackImage.png"] "stale.png" (by decide) (by decide)
  refine ⟨?_, by decide, by decide⟩
  apply h.1.mpr
  refine ⟨by decide, by decide, by decide, ?_⟩
  rintro ⟨e, he, url, hurl, _hne2, hlf⟩
  have he2 : e = [("image", JVal.str "http://x/a.png")] := List.mem_singleton.mp he
  rw [he2] at hurl
  have hu : (some "http://x/a.png" : Option String) = some url := hurl
  injection hu with hu2
  rw [← hu2] at hlf
  exact absurd hlf (by decide)

/-- C6: after a successful run, a second run changes nothing: same filesystem
state, exit 0, and every report of the second run is empty or zero. -/
theorem claim6_idempotent (s : FSState) (_hwf : stateWF s = true)
    (h0 : (runMain true s).exitCode = 0) :
    runMain true (runMain true s).state =
      { state := (runMain true s).state, exitCode := 0, removedPercent := [],
        removedEntries := [], trimmedEntries := [], sanitizeChanges := 0,
        saveInvoked := false, removedImages := [] } :=
  runMain_idem s h0

/-- Witness for C6 at a concrete state exercising every step: a missing image
is dropped, a title is sanitized, an unused image is reaped, and the second
run is a no-op. -/
theorem claim6_witness :
    stateWF
      { catalogFile := some
          [[("title", JVal.str "A*"), ("image", JVal.str "http://x/a.png")],
           [("title", JVal.str "B"), ("image", JVal.str "http://x/missing.png")]],
        folder := some ["a.png", "stale.png", "fallbackImage.png"] } = true ∧
    (runMain true
      { catalogFile := some
          [[("title", JVal.str "A*"), ("image", JVal.str "http://x/a.png")],
           [("title", JVal.str "B"), ("image", JVal.str "http://x/missing.png")]],
        folder := some ["a.png", "stale.png", "fallbackImage.png"] }).exitCode = 0 ∧
    runMain true (runMain true
      { catalogFile := some
          [[("title", JVal.str "A*"), ("image", JVal.str "http://x/a.png")],
           [("title", JVal.str "B"), ("image", JVal.str "http://x/missing.png")]],
        folder := some ["a.png", "stale.png", "fallbackImage.png"] }).state =
      { state := (runMain true
          { catalogFile := some
              [[("title", JVal.str "A*"), ("image", JVal.str "http://x/a.png")],
               [("title", JVal.str "B"), ("image", JVal.str "http://x/missing.png")]],
            folder := some ["a.png", "stale.png", "fallbackImage.png"] }).state,
        exitCode := 0, removedPercent := [], removedEntries := [], trimmedEntries := [],
        sanitizeChanges := 0, saveInvoked := false, removedImages := [] } :=
  ⟨by decide, by decide,
    claim6_idempotent
      { catalogFile := some
          [[("title", JVal.str "A*"), ("image", JVal.str "http://x/a.png")],
           [("title", JVal.str "B"), ("image", JVal.str "http://x/missing.png")]],
        folder := some ["a.png", "stale.png", "fallbackImage.png"] }
      (by decide) (by decide)⟩

/-- C7: the catalog writer is invoked exactly when the filter removed an
entry, the truncator removed an entry, or the sanitizer changed a field; when
it is not invoked, the on-disk catalog is untouched. -/
theorem claim7_writer_iff (saveOk : Bool) (s : FSState) :
    ((runMain saveOk s).saveInvoked = true ↔
      ((runMain saveOk s).removedEntries ≠ [] ∨ (runMain saveOk s).trimmedEntries ≠ [] ∨
        (runMain saveOk s).sanitizeChanges ≠ 0)) ∧
    ((runMain saveOk s).saveInvoked = false →
      (runMain saveOk s).state.catalogFile = s.catalogFile) := by
  obtain ⟨file, folder⟩ := s
  cases file with
  | none =>
    constructor
    · simp [runMain]
    · intro _
      rfl
  | some content =>
    have hrep := runWithContent_reports saveOk content (removePercentImages folder).1
      (removePercentImages folder).2
    have heq : runMain saveOk { catalogFile := some content, folder := folder } =
        runWithContent saveOk content (removePercentImages folder).1
          (removePercentImages folder).2 := rfl
    rw [heq, hrep.1, hrep.2.1, hrep.2.2.1, hrep.2.2.2.1]
    constructor
    · exact needSaveOf_iff content _
    · intro hns
      exact runWithContent_file_noSave saveOk content _ _ hns

/-- Witness for C7 at a concrete no-change state: the writer is not invoked
and the catalog file is untouched. -/
theorem claim7_witness :
    (runMain true { catalogFile := some [[("title", JVal.str "A")]], folder := none
      }).saveInvoked = false ∧
    (runMain true { catalogFile := some [[("title", JVal.str "A")]], folder := none
      }).state.catalogFile = some [[("title", JVal.str "A")]] :=
  ⟨by decide,
    (claim7_writer_iff true
      { catalogFile := some [[("title", JVal.str "A")]], folder := none }).2 (by decide)⟩

/-- C8: the exit code is 1 exactly when the catalog could not be loaded or the
writer was invoked and the save failed, and 0 otherwise (including the no-op
run); on a load failure nothing is filtered, truncated, sanitized, written or
reaped — only the pre-load percent purge has touched the folder. -/
theorem claim8_exit_codes (saveOk : Bool) (s : FSState) :
    ((runMain saveOk s).exitCode =
      if (s.catalogFile.isNone || ((runMain saveOk s).saveInvoked && !saveOk)) then 1
      else 0) ∧
    (s.catalogFile = none →
      (runMain saveOk s).state.catalogFile = none ∧
      (runMain saveOk s).state.folder = (removePercentImages s.folder).1 ∧
      (runMain saveOk s).removedEntries = [] ∧
      (runMain saveOk s).trimmedEntries = [] ∧
      (runMain saveOk s).sanitizeChanges = 0 ∧
      (runMain saveOk s).saveInvoked = false ∧
      (runMain saveOk s).removedImages = []) := by
  obtain ⟨file, folder⟩ := s
  cases file with
  | none =>
    constructor
    · simp [runMain]
    · intro _
      exact ⟨rfl, rfl, rfl, rfl, rfl, rfl, rfl⟩
  | some content =>
    constructor
    · have heq : runMain saveOk { catalogFile := some content, folder := folder } =
          runWithContent saveOk content (removePercentImages folder).1
            (removePercentImages folder).2 := rfl
      have hrep := runWithContent_reports saveOk content (removePercentImages folder).1
        (removePercentImages folder).2
      rw [heq, hrep.2.2.2.1, runWithContent_exit]
      simp
    · intro h
      cases h

/-- Witness for C8 at a load failure with a percent-named file: exit 1, the
percent purge has run, nothing else happened. -/
theorem claim8_witness :
    (runMain true { catalogFile := none, folder := some ["a%b.png", "c.png"] }).exitCode
      = 1 ∧
    (runMain true { catalogFile := none, folder := some ["a%b.png", "c.png"]
      }).state.folder = some ["c.png"] ∧
    (runMain true { catalogFile := none, folder := some ["a%b.png", "c.png"]
      }).removedImages = [] := by
  have h := claim8_exit_codes true
    { catalogFile := none, folder := some ["a%b.png", "c.png"] }
  have h2 := h.2 rfl
  refine ⟨?_, ?_, h2.2.2.2.2.2.2⟩
  · rw [h.1]
    decide
  · rw [h2.2.1]
    decide

/-- Counterexample to C9 as stated: a catalog from which the pipeline removes
no entries, but whose title contains `*`: the written-back sequence differs
from the input (the asterisk is gone). -/
theorem claim9_counterexample :
    (runMain true
      { catalogFile := some [[("title", JVal.str "A*")]],
        folder := some [] }).removedEntries = [] ∧
    (runMain true
      { catalogFile := some [[("title", JVal.str "A*")]],
        folder := some [] }).trimmedEntries = [] ∧
    (runMain true
      { catalogFile := some [[("title", JVal.str "A*")]],
        folder := some [] }).state.catalogFile ≠ some [[("title", JVal.str "A*")]] := by
  decide

/-- C9 (amended): when the pipeline removes no entries and the save succeeds,
the resulting on-disk catalog is the input with `*` removed from string
`title`/`description` values — same entries in the same order, same key sets,
same field order, every other field verbatim (`starScrubKV` only rewrites the
value at `title`/`description` keys). -/
theorem claim9_order_preservation (s : FSState) (c : Catalog)
    (h1 : s.catalogFile = some c)
    (hnd : ∀ e ∈ c, ((e : Entry).map Prod.fst).Nodup)
    (h2 : (runMain true s).removedEntries = [])
    (h3 : (runMain true s).trimmedEntries = []) :
    (runMain true s).state.catalogFile = some (c.map (fun e => e.map starScrubKV)) := by
  obtain ⟨file, folder⟩ := s
  simp only at h1
  subst h1
  have heq : runMain true { catalogFile := some c, folder := folder } =
      runWithContent true c (removePercentImages folder).1
        (removePercentImages folder).2 := rfl
  rw [heq] at h2 h3 ⊢
  have hrep := runWithContent_reports true c (removePercentImages folder).1
    (removePercentImages folder).2
  rw [hrep.1] at h2
  rw [hrep.2.1] at h3
  have hfst : (filterContentByExistingImages c (removePercentImages folder).1).1 = c :=
    filter_snd_nil_fst _ _ h2
  have hkept : keptOf c (removePercentImages folder).1 = c := by
    unfold keptOf
    rw [keepTopElements_snd_nil _ 30 h3, hfst]
  have hsan := sanitizeAsterisks_eq_map c hnd
  rw [runWithContent_state]
  unfold finalOf
  rw [hkept, hsan.1]

/-- Witness for C9 (amended) at a concrete catalog: the title is scrubbed, the
unrelated field and the field order survive. -/
theorem claim9_witness :
    (runMain true
      { catalogFile := some [[("title", JVal.str "A*"), ("x", JVal.num 1)]],
        folder := none }).removedEntries = [] ∧
    (runMain true
      { catalogFile := some [[("title", JVal.str "A*"), ("x", JVal.num 1)]],
        folder := none }).state.catalogFile =
      some [[("title", JVal.str "A"), ("x", JVal.num 1)]] := by
  refine ⟨by decide, ?_⟩
  have h := claim9_order_preservation
    { catalogFile := some [[("title", JVal.str "A*"), ("x", JVal.num 1)]], folder := none }
    [[("title", JVal.str "A*"), ("x", JVal.num 1)]] rfl (by decide) (by decide) (by decide)
  rw [h]
  decide

end CleanupJson
